import Mathlib

/-!
Verification of the PyCodeLens snippet store, extractor, enricher, ranking and
budget subsystems. Python sources are embedded shallowly: SQLite state becomes
explicit record-passing, machine floats that only ever carry exactly
representable values (weights, 5 percent floors) become rationals, and the
Python standard library string primitives used by the code are re-implemented
character-by-character so that every definition evaluates inside Lean.
-/

/-! ## Character and string primitives

Python `str` operations and the SQLite `LIKE` operator, modelled on `List Char`
so that everything reduces. -/

/-- Python `str.strip` whitespace set: space, tab, LF, CR, VT, FF. -/
def pyIsSpace (c : Char) : Bool :=
  c = ' ' || c = '\t' || c = '\n' || c = '\r' || c = Char.ofNat 11 || c = Char.ofNat 12

/-- Python `str.strip()`: drop leading and trailing whitespace. -/
def pyStrip (s : String) : String :=
  ⟨((s.data.dropWhile pyIsSpace).reverse.dropWhile pyIsSpace).reverse⟩

/-- Python slice `s[n:]`. -/
def pyDrop (s : String) (n : Nat) : String := ⟨s.data.drop n⟩

/-- Python `s.split("(")[0]`: everything before the first left parenthesis. -/
def takeBeforeParen (s : String) : String := ⟨s.data.takeWhile (fun c => c ≠ '(')⟩

/-- Python `s.startswith(pre)`. -/
def startsWithStr (pre s : String) : Bool := pre.data.isPrefixOf s.data

/-- Python `needle in hay` on strings: substring containment. -/
def containsSub (hay needle : String) : Bool :=
  hay.data.tails.any (fun t => needle.data.isPrefixOf t)

/-- Python `str.lower()` restricted to the ASCII range, which is all the
sources ever feed it. -/
def lowerStr (s : String) : String := ⟨s.data.map Char.toLower⟩

/-- Python string comparison: lexicographic on code points. -/
def strLtChars : List Char → List Char → Bool
  | [], [] => false
  | [], _ :: _ => true
  | _ :: _, [] => false
  | a :: as, b :: bs =>
    if a.val < b.val then true
    else if b.val < a.val then false
    else strLtChars as bs

/-- Python `s <= t` on strings. -/
def pyStrLe (a b : String) : Bool := !(strLtChars b.data a.data)

/-- Insert into a sorted list, keeping earlier elements first among equals. -/
def insertSorted {α : Type} (le : α → α → Bool) (x : α) : List α → List α
  | [] => [x]
  | y :: ys => if le x y then x :: y :: ys else y :: insertSorted le x ys

/-- Stable insertion sort; the shallow model of Python `sorted`. -/
def sortByLe {α : Type} (le : α → α → Bool) : List α → List α
  | [] => []
  | x :: xs => insertSorted le x (sortByLe le xs)

/-- Python `sorted` on a list of strings. -/
def sortStrings (l : List String) : List String := sortByLe pyStrLe l

/-- Python `set.add` realised on a duplicate-free list: keep first occurrences. -/
def setAdd (s : List String) (x : String) : List String :=
  if x ∈ s then s else s ++ [x]

/-- SQLite `LIKE` folds ASCII case on both sides. -/
def sqlCharEq (p c : Char) : Bool := p.toLower = c.toLower

/-- SQLite `LIKE`: `%` matches any run, `_` any one character, other characters
match up to ASCII case. First argument is the pattern, second the text. -/
def likeMatch : List Char → List Char → Bool
  | [], s => s.isEmpty
  | p :: ps, s =>
    if p = '%' then
      likeMatch ps s ||
        (match s with
          | [] => false
          | _ :: s2 => likeMatch (p :: ps) s2)
    else
      match s with
      | [] => false
      | c :: s2 => if p = '_' then likeMatch ps s2 else sqlCharEq p c && likeMatch ps s2
  termination_by p s => p.length + s.length

/-- SQLite `text LIKE pattern`. -/
def likeStr (text pattern : String) : Bool := likeMatch pattern.data text.data

/-- Character-wise `LIKE` matching for a `%`-free pattern: `_` matches any one
character, every other pattern character matches up to ASCII case. -/
def litMatches : List Char → List Char → Bool
  | [], [] => true
  | p :: ps, c :: cs => (if p = '_' then true else sqlCharEq p c) && litMatches ps cs
  | _, _ => false

/-- Python `s.split(sep)` on a single-character separator. -/
def splitOnChar (sep : Char) : List Char → List (List Char)
  | [] => [[]]
  | c :: cs =>
    match splitOnChar sep cs with
    | [] => [[c]]
    | h :: t => if c = sep then [] :: h :: t else (c :: h) :: t

/-- Python `s.split('.')`. -/
def pySplitDot (s : String) : List String := (splitOnChar '.' s.data).map (⟨·⟩)

/-! ## Snippet store: `core/database.py`

A row of the `code_snippets` table (schema at `database.py:23-38`). -/

structure SnippetRow where
  file_path : String
  dir_path : String
  name : String
  type_name : String
  description : String
  code : String
  line_start : Nat
  line_end : Nat
  char_count : Nat
deriving Repr, DecidableEq

/-- Query normalisation at the top of `CodeDatabase.get_code_by_name`
(`database.py:251-256`): strip, then drop a leading `def ` or `class `
together with everything from the first `(` on, then strip again. -/
def cleanName (name : String) : String :=
  let cleaned := pyStrip name
  if startsWithStr "def " cleaned then pyStrip (takeBeforeParen (pyDrop cleaned 4))
  else if startsWithStr "class " cleaned then pyStrip (takeBeforeParen (pyDrop cleaned 6))
  else cleaned

/-- Exact-mode WHERE clause of `get_code_by_name` (`database.py:260-263`):
`name = ? OR name LIKE '%.?' OR name LIKE '%.?(%'` for the cleaned query. -/
def exactNameMatch (q name : String) : Bool :=
  name == q || likeStr name ("%." ++ q) || likeStr name ("%." ++ q ++ "(%")

/-- Non-exact-mode WHERE clause of `get_code_by_name` (`database.py:266-281`). -/
def flexNameMatch (q name : String) : Bool :=
  name == q || likeStr name (q ++ ".%") || likeStr name ("%." ++ q) ||
    likeStr name ("%." ++ q ++ ".%") || likeStr name ("%." ++ q ++ "(%") ||
    likeStr name ("%def " ++ q ++ "(%")

/-- ORDER BY rank of the non-exact branch: exact 0, prefix 1, dotted suffix 2,
else 3 (`database.py:270-276`). -/
def flexRank (q name : String) : Nat :=
  if name == q then 0
  else if likeStr name (q ++ ".%") then 1
  else if likeStr name ("%." ++ q) then 2
  else 3

/-- Comparison realising `ORDER BY <rank CASE>, length(name)`. -/
def flexLe (q : String) (a b : SnippetRow) : Bool :=
  flexRank q a.name < flexRank q b.name ||
    (flexRank q a.name = flexRank q b.name && a.name.data.length ≤ b.name.data.length)

/-- `CodeDatabase.get_code_by_name` (`database.py:246-291`) over the table
contents in insertion (rowid) order. Exact mode filters; non-exact mode
filters with the wider clause and sorts by rank then name length. -/
def get_code_by_name (rows : List SnippetRow) (file_path name : String)
    (exact_match : Bool) : List SnippetRow :=
  let cleaned := cleanName name
  if exact_match then
    rows.filter (fun r => r.file_path == file_path && exactNameMatch cleaned r.name)
  else
    sortByLe (flexLe cleaned)
      (rows.filter (fun r => r.file_path == file_path && flexNameMatch cleaned r.name))

/-! ## Staleness: `CodeDatabase.needs_update` (`database.py:138-159`)

The filesystem is an oracle from path to optional mtime (`None` = the file
does not exist); the `code_files` table is an association list. -/

/-- SELECT `last_parsed_time` FROM `code_files` WHERE `file_path = ?`. -/
def lookupParsedTime (files : List (String × ℚ)) (fp : String) : Option ℚ :=
  match files.find? (fun r => r.fst == fp) with
  | none => none
  | some r => some r.snd

/-- `needs_update`: `False` straight away when the file does not exist; `True`
when it was never parsed; otherwise mtime strictly above the stored time. -/
def needs_update (fsMtime : String → Option ℚ) (files : List (String × ℚ))
    (fp : String) : Bool :=
  match fsMtime fp with
  | none => false
  | some last_modified =>
    match lookupParsedTime files fp with
    | none => true
    | some last_parsed => decide (last_modified > last_parsed)

/-! ## Transactional write path: `database.py` + `utils/code_extractor.py`

The SQLite connection is modelled as a committed database plus the current
uncommitted view; `connection.commit()` publishes the current view and
`connection.rollback()` restores the committed one. Every helper in
`database.py` that the extractor actually calls issues its own COMMIT. -/

structure DbState where
  snippets : List SnippetRow
  files : List (String × ℚ)
deriving Repr, DecidableEq

structure SqliteConn where
  committed : DbState
  current : DbState
deriving Repr, DecidableEq

/-- Rows an independent reader observes for one file: the committed table
filtered on `file_path`. -/
def rowsFor (st : DbState) (fp : String) : List SnippetRow :=
  st.snippets.filter (fun r => r.file_path == fp)

/-- `CodeDatabase.add_code_snippet` (`database.py:71-89`): INSERT then COMMIT;
any exception is caught, logged and turned into the return value `False` with
the row not inserted. The `fails` flag injects that exception. -/
def add_code_snippet (fails : Bool) (row : SnippetRow) (conn : SqliteConn) :
    Bool × SqliteConn :=
  if fails then (false, conn)
  else
    let cur := { conn.current with snippets := conn.current.snippets ++ [row] }
    (true, ⟨cur, cur⟩)

/-- `CodeDatabase.clear_file_snippets` (`database.py:177-187`): DELETE by file
then COMMIT. -/
def clear_file_snippets (fp : String) (conn : SqliteConn) : SqliteConn :=
  let cur := { conn.current with
    snippets := conn.current.snippets.filter (fun r => !(r.file_path == fp)) }
  ⟨cur, cur⟩

/-- `CodeDatabase.update_file_timestamp` (`database.py:123-136`): INSERT OR
REPLACE the row for `fp` then COMMIT. -/
def update_file_timestamp (fp : String) (t : ℚ) (conn : SqliteConn) : SqliteConn :=
  let cur := { conn.current with
    files := conn.current.files.filter (fun r => !(r.fst == fp)) ++ [(fp, t)] }
  ⟨cur, cur⟩

/-- `CodeDatabase.commit_transaction` (`database.py:211-219`). -/
def commit_transaction (conn : SqliteConn) : SqliteConn := ⟨conn.current, conn.current⟩

/-- `CodeDatabase.rollback_transaction` (`database.py:221-229`). -/
def rollback_transaction (conn : SqliteConn) : SqliteConn := ⟨conn.committed, conn.committed⟩

/-- Payload `CodeExtractor._store_snippet` forwards for one element
(`code_extractor.py:375-397`); file and directory come from the extractor. -/
structure SnipData where
  name : String
  type_name : String
  code : String
  line_start : Nat
  line_end : Nat
  char_count : Nat
  description : String
deriving Repr, DecidableEq

/-- Row built by `add_code_snippet` from `_store_snippet`'s arguments. -/
def mkRow (fp dp : String) (d : SnipData) : SnippetRow :=
  ⟨fp, dp, d.name, d.type_name, d.description, d.code, d.line_start, d.line_end, d.char_count⟩

/-- Storing loop of `_extract_and_store`: each element goes through
`_store_snippet`, which calls the self-committing `add_code_snippet`, discards
its Boolean result, and the surrounding loop bumps `count` regardless
(`code_extractor.py:119-252`). `insertFails i` injects a failure into the
i-th INSERT. -/
def storeAll (fp dp : String) (insertFails : Nat → Bool) :
    List SnipData → Nat → SqliteConn → Nat × SqliteConn
  | [], count, conn => (count, conn)
  | d :: rest, count, conn =>
    let step := add_code_snippet (insertFails count) (mkRow fp dp d) conn
    storeAll fp dp insertFails rest (count + 1) step.2

/-- `CodeExtractor.extract_from_file` (`code_extractor.py:28-95`): commit the
timestamp, commit the deletion of the old rows, BEGIN, run
`_extract_and_store`, commit. `parsed = none` is `ast.parse` raising
`SyntaxError`, which `_extract_and_store` catches itself and maps to count 0
(`code_extractor.py:105-109`), so control still reaches `commit_transaction`;
no path reaches `rollback_transaction` for a syntax error. -/
def extract_from_file (fp dp : String) (now : ℚ) (parsed : Option (List SnipData))
    (insertFails : Nat → Bool) (conn : SqliteConn) : Nat × SqliteConn :=
  let conn1 := update_file_timestamp fp now conn
  let conn2 := clear_file_snippets fp conn1
  match parsed with
  | none => (0, commit_transaction conn2)
  | some snips =>
    let res := storeAll fp dp insertFails snips 0 conn2
    (res.1, commit_transaction res.2)

/-! ## Import extraction: `code_extractor.py:265-294` and `astroid_analyzer.py:102-112` -/

/-- One module-level import node: `ast.Import` carries the imported names,
`ast.ImportFrom` the origin module and the names, each at a source line. -/
inductive ImportNode where
  | imp : List String → Nat → ImportNode
  | impFrom : String → List String → Nat → ImportNode
deriving Repr, DecidableEq

/-- Entry of the list `CodeExtractor._extract_imports` returns. -/
structure ImportStmt where
  statement : String
  line_start : Nat
  line_end : Nat
deriving Repr, DecidableEq

/-- Statement text `_extract_imports` builds for one node
(`code_extractor.py:277` and `:287`): names joined with `", "` in source
order. -/
def renderImport : ImportNode → String
  | .imp names _ => "import " ++ String.intercalate ", " names
  | .impFrom module names _ => "from " ++ module ++ " import " ++ String.intercalate ", " names

/-- Line number of an import node. -/
def importLine : ImportNode → Nat
  | .imp _ ln => ln
  | .impFrom _ _ ln => ln

/-- `CodeExtractor._extract_imports` (`code_extractor.py:265-294`): the
append-per-node loop, kept as explicit accumulation. -/
def extract_imports_loop (acc : List ImportStmt) : List ImportNode → List ImportStmt
  | [] => acc
  | n :: rest =>
    extract_imports_loop (acc ++ [⟨renderImport n, importLine n, importLine n⟩]) rest

/-- `CodeExtractor._extract_imports` entry point. -/
def extract_imports (nodes : List ImportNode) : List ImportStmt :=
  extract_imports_loop [] nodes

/-- One `self.imports` entry per name for plain imports, one per node for
from-imports, as in `AstroidAnalyzer._extract_imports`
(`astroid_analyzer.py:102-112`). -/
def astroidImportLines : ImportNode → List String
  | .imp names _ => names.map (fun n => "import " ++ n)
  | .impFrom module names _ => ["from " ++ module ++ " import " ++ String.intercalate ", " names]

/-- `AstroidAnalyzer._extract_imports` as the same append loop. -/
def astroid_imports_loop (acc : List String) : List ImportNode → List String
  | [] => acc
  | n :: rest => astroid_imports_loop (acc ++ astroidImportLines n) rest

/-- `AstroidAnalyzer._extract_imports` entry point. -/
def astroid_imports (nodes : List ImportNode) : List String :=
  astroid_imports_loop [] nodes

/-- Origin module of a node, for the specification-side normalisation. -/
def importOrigin : ImportNode → String
  | .imp names _ => String.intercalate ", " names
  | .impFrom module _ _ => module

/-- Names carried by a node. -/
def importNames : ImportNode → List String
  | .imp names _ => names
  | .impFrom _ names _ => names

/-- Modelled from the spec: "Import statements are normalized and grouped by
origin module, names merged and lexicographically sorted for determinism."
For every distinct origin module, in first-appearance order, a single
statement with the merged, lexicographically sorted names. Stated for
from-imports, which is where grouping and sorting are observable. -/
def specNormalizedImports (nodes : List ImportNode) : List String :=
  let origins := (nodes.map importOrigin).foldl setAdd []
  origins.map (fun m =>
    let names := (nodes.filter (fun n => importOrigin n == m)).flatMap importNames
    "from " ++ m ++ " import " ++ String.intercalate ", " (sortStrings (names.foldl setAdd [])))

/-! ## Snippet extraction: `CodeExtractor._extract_and_store`
(`code_extractor.py:97-263`)

The parsed file is taken as input: Python ≥ 3.8 always populates
`end_lineno`, so `_get_end_line` returns it (`code_extractor.py:319-320`). -/

structure AstFunc where
  name : String
  lineno : Nat
  end_lineno : Nat
  docstring : String
deriving Repr, DecidableEq

structure AstClass where
  name : String
  lineno : Nat
  end_lineno : Nat
  docstring : String
  methods : List AstFunc
deriving Repr, DecidableEq

structure PyFile where
  path : String
  dir : String
  lines : List String
  importNodes : List ImportNode
  classes : List AstClass
  funcs : List AstFunc
deriving Repr, DecidableEq

/-- Python `"\n".join(self.source_lines[a-1:b])`. -/
def sliceJoin (lines : List String) (a b : Nat) : String :=
  String.intercalate "\n" ((lines.drop (a - 1)).take (b - (a - 1)))

/-- Python `len` of a string: its character count. -/
def pyLen (s : String) : Nat := s.data.length

/-- Import rows stored by `_extract_and_store` (`code_extractor.py:117-131`). -/
def importRows (f : PyFile) : List SnippetRow :=
  (extract_imports f.importNodes).map (fun imp =>
    mkRow f.path f.dir
      ⟨imp.statement, "import", imp.statement, imp.line_start, imp.line_end,
        pyLen imp.statement, "インポート文"⟩)

/-- Method rows for one class (`code_extractor.py:171-211`): the end line
falls back to the (already adjusted) class end when `end <= start`, the
method is skipped when its start line is beyond the file, and the end line is
clamped to the file length. -/
def methodRows (f : PyFile) (className : String) (classEnd : Nat)
    (methods : List AstFunc) : List SnippetRow :=
  methods.filterMap (fun m =>
    let method_end0 := if m.end_lineno ≤ m.lineno then classEnd else m.end_lineno
    if m.lineno > f.lines.length then none
    else
      let method_end := if method_end0 > f.lines.length then f.lines.length else method_end0
      let code := sliceJoin f.lines m.lineno method_end
      some (mkRow f.path f.dir
        ⟨className ++ "." ++ m.name, "function", code, m.lineno, method_end,
          pyLen code, m.docstring⟩))

/-- Class rows plus their method rows (`code_extractor.py:133-214`). A class
whose start line is beyond the file is skipped together with its methods. -/
def classRows (f : PyFile) : List SnippetRow :=
  f.classes.flatMap (fun c =>
    let class_end0 := if c.end_lineno ≤ c.lineno then f.lines.length else c.end_lineno
    if c.lineno > f.lines.length then []
    else
      let class_end := if class_end0 > f.lines.length then f.lines.length else class_end0
      let code := sliceJoin f.lines c.lineno class_end
      mkRow f.path f.dir
          ⟨c.name, "class", code, c.lineno, class_end, pyLen code, c.docstring⟩ ::
        methodRows f c.name class_end c.methods)

/-- Top-level function rows (`code_extractor.py:216-255`): the end line falls
back to the file length when `end <= start`. -/
def funcRows (f : PyFile) : List SnippetRow :=
  f.funcs.filterMap (fun fn =>
    let func_end0 := if fn.end_lineno ≤ fn.lineno then f.lines.length else fn.end_lineno
    if fn.lineno > f.lines.length then none
    else
      let func_end := if func_end0 > f.lines.length then f.lines.length else func_end0
      let code := sliceJoin f.lines fn.lineno func_end
      some (mkRow f.path f.dir
        ⟨fn.name, "function", code, fn.lineno, func_end, pyLen code, fn.docstring⟩))

/-- Rows `_extract_and_store` inserts, in insertion order: imports, then
classes interleaved with their methods, then top-level functions. -/
def extractRows (f : PyFile) : List SnippetRow :=
  importRows f ++ classRows f ++ funcRows f

/-! ## Budget allocation: `TokenBudgetManager.allocate_budget`
(`llm/optimizer.py:153-178`)

Section identity never enters the arithmetic, so the ratio map is carried as
the list of its values; `len(allocation)` is the list length. Floats become
rationals: every constant involved (`0.05`, the test inputs) is exact. -/

/-- Ratios normalised to sum 1 (`optimizer.py:156-157`). -/
def normalizedRatios (shares : List ℚ) : List ℚ :=
  shares.map (fun v => v / shares.sum)

/-- Proportional allocation (`optimizer.py:160`). -/
def rawAllocation (B : ℚ) (shares : List ℚ) : List ℚ :=
  (normalizedRatios shares).map (fun v => B * v)

/-- The 5 percent floor (`optimizer.py:163`). -/
def minBudget (B : ℚ) : ℚ := B * (5 / 100)

/-- Floor-raising pass (`optimizer.py:165-167`). -/
def flooredAllocation (B : ℚ) (shares : List ℚ) : List ℚ :=
  (rawAllocation B shares).map (fun v => if v < minBudget B then minBudget B else v)

/-- `allocate_budget` (`optimizer.py:153-178`): proportional shares, floor
pass, then — only when the floored sum overshoots — one even subtraction of
the excess, clamped at the floor. -/
def allocate_budget (B : ℚ) (shares : List ℚ) : List ℚ :=
  let floored := flooredAllocation B shares
  if floored.sum > B then
    let excess_per_item := (floored.sum - B) / (floored.length : ℚ)
    floored.map (fun v => max (minBudget B) (v - excess_per_item))
  else floored

/-! ## Call graph: `core/dependency.py`

`ast.Call` function positions distinguished by shape. `ast.Name` carries the
field `id` and nothing called `name`; `dependency.py:115` reads
`node.func.name`, so that branch always raises `AttributeError`, which the
handler at `dependency.py:139-141` swallows. The embedding keeps the
attribute access as an `Option` that is `none` for `ast.Name`. -/

inductive CallFunc where
  | byName (id : String)
  | selfAttr (attr : String)
  | otherAttr (objName attr : String)
deriving Repr, DecidableEq

inductive PyExpr where
  | call : CallFunc → List PyExpr → PyExpr
  | atom : PyExpr
deriving Repr

inductive PyStmt where
  | exprStmt : PyExpr → PyStmt
  | passStmt : PyStmt
deriving Repr

structure PyFuncDef where
  name : String
  body : List PyStmt
deriving Repr

structure PyClassDef where
  name : String
  methods : List PyFuncDef
deriving Repr

structure PyModule where
  name : String
  funcs : List PyFuncDef
  classes : List PyClassDef
deriving Repr

/-- Attribute access `node.func.name` attempted by `dependency.py:115`:
`ast.Name` exposes `id` only, so the access raises (modelled as `none`); the
other shapes never reach that line. -/
def funcNameAttr : CallFunc → Option String
  | .byName _ => none
  | .selfAttr _ => none
  | .otherAttr _ _ => none

/-- The per-module function table built in step 1 of `generate_call_graph`
(`dependency.py:40-55`): top-level functions first, then `Class.method`
entries, each mapped to its full dotted name. -/
def moduleFunctionTable (m : PyModule) : List (String × String) :=
  m.funcs.map (fun f => (f.name, m.name ++ "." ++ f.name)) ++
    m.classes.flatMap (fun c =>
      c.methods.map (fun mm => (c.name ++ "." ++ mm.name, m.name ++ "." ++ c.name ++ "." ++ mm.name)))

/-- `module_functions`: insertion-ordered module table list. -/
def moduleFunctions (mods : List PyModule) : List (String × List (String × String)) :=
  mods.map (fun m => (m.name, moduleFunctionTable m))

/-- Association-list lookup, Python `key in dict` / `dict[key]`. -/
def alistFind {α : Type} (l : List (String × α)) (k : String) : Option α :=
  match l.find? (fun r => r.fst == k) with
  | none => none
  | some r => some r.snd

/-- Edges contributed by one `ast.Call` node (`dependency.py:111-141`).
Bare-name branch: `called_name = node.func.name` raises `AttributeError`
before any table scan, and the handler drops the call. `self.<attr>` branch:
resolved against the caller's own module table under `Class.attr`. -/
def callEdges (mfuncs : List (String × List (String × String))) (callerName : String) :
    CallFunc → List String
  | .byName i =>
    match funcNameAttr (.byName i) with
    | none => []
    | some called_name =>
      (mfuncs.filterMap (fun mf => alistFind mf.snd called_name))
  | .selfAttr attr =>
    let parts := pySplitDot callerName
    if parts.length ≥ 3 then
      let module_name := parts.headD ""
      let class_name := (parts.drop 1).headD ""
      let method_key := class_name ++ "." ++ attr
      match alistFind mfuncs module_name with
      | none => []
      | some table =>
        match alistFind table method_key with
        | none => []
        | some full => [full]
    else []
  | .otherAttr _ _ => []

mutual

/-- `_find_calls_in_node` (`dependency.py:108-145`): handle a Call node, then
recurse into every child node. -/
def findCallsExpr (mfuncs : List (String × List (String × String))) (callerName : String) :
    PyExpr → List String
  | .call f args =>
    callEdges mfuncs callerName f ++ findCallsArgs mfuncs callerName args
  | .atom => []

/-- Recursion of `_find_calls_in_node` into the argument children. -/
def findCallsArgs (mfuncs : List (String × List (String × String))) (callerName : String) :
    List PyExpr → List String
  | [] => []
  | a :: rest =>
    findCallsExpr mfuncs callerName a ++ findCallsArgs mfuncs callerName rest

end

/-- `_find_calls_in_node` applied to one statement of a function body. -/
def findCallsStmt (mfuncs : List (String × List (String × String))) (callerName : String) :
    PyStmt → List String
  | .exprStmt e => findCallsExpr mfuncs callerName e
  | .passStmt => []

/-- Python `set` of callees for one caller, first-occurrence order. -/
def calleeSet (mfuncs : List (String × List (String × String))) (callerName : String)
    (body : List PyStmt) : List String :=
  (body.flatMap (findCallsStmt mfuncs callerName)).foldl setAdd []

/-- `generate_call_graph` steps 1-2 (`dependency.py:7-106`): register every
function and method of every module, then analyse each body. The result is
the call graph as an insertion-ordered association list. -/
def generate_call_graph (mods : List PyModule) : List (String × List String) :=
  let mfuncs := moduleFunctions mods
  mods.flatMap (fun m =>
    m.funcs.map (fun f =>
        (m.name ++ "." ++ f.name, calleeSet mfuncs (m.name ++ "." ++ f.name) f.body)) ++
      m.classes.flatMap (fun c =>
        c.methods.map (fun mm =>
          let caller := m.name ++ "." ++ c.name ++ "." ++ mm.name
          (caller, calleeSet mfuncs caller mm.body))))

/-- Modelled from the spec: "bare-name call, resolved by scanning every batch
module's top-level function table for a same-named entry, first match wins".
The callee the specification expects for a bare-name call. -/
def specResolveBareCall (mods : List PyModule) (calledName : String) : Option String :=
  match mods.find? (fun m => m.funcs.any (fun f => f.name == calledName)) with
  | none => none
  | some m => some (m.name ++ "." ++ calledName)

/-! ## Return-type inference: `AstroidAnalyzer._infer_return_type`
(`astroid_analyzer.py:408-445`)

Return expressions are opaque tags; astroid's `infer()` is an oracle mapping a
tag to `none` when inference raises and to the list of rendered type strings
(one per inference result, already put through the
`pytype`/`type(...).__name__` rendering of lines 426-429) otherwise. Function
bodies keep just enough statement structure to distinguish a `return` that is
a direct child of the `FunctionDef` from one nested in a compound statement
or in an inner function. -/

inductive BodyStmt where
  | ret : Option String → BodyStmt
  | ifStmt : List BodyStmt → List BodyStmt → BodyStmt
  | innerDef : List BodyStmt → BodyStmt
  | other : BodyStmt
deriving Repr

/-- The `return` nodes the loop at `astroid_analyzer.py:416-418` collects:
`node.get_children()` yields only the direct children of the `FunctionDef`,
and only `Return` nodes with a value qualify. -/
def directReturnValues (body : List BodyStmt) : List String :=
  body.filterMap (fun s =>
    match s with
    | .ret (some v) => some v
    | _ => none)

/-- Inference loop of `astroid_analyzer.py:421-435`: a raised exception (or
`StopIteration`) skips the return entirely; otherwise every rendered result
string is added to the `types` set. -/
def collectTypes (infer : String → Option (List String)) : List String → List String → List String
  | acc, [] => acc
  | acc, v :: rest =>
    match infer v with
    | none => collectTypes infer acc rest
    | some rendered => collectTypes infer (rendered.foldl setAdd acc) rest

/-- Final rendering of `astroid_analyzer.py:437-442`: empty set → `"None"`,
one element → that element, otherwise `" | "`-joined in sorted order. -/
def renderTypeSet (types : List String) : String :=
  match types with
  | [] => "None"
  | [t] => t
  | ts => String.intercalate " | " (sortStrings ts)

/-- `_infer_return_type` (`astroid_analyzer.py:408-445`). -/
def infer_return_type (infer : String → Option (List String)) (body : List BodyStmt) : String :=
  renderTypeSet (collectTypes infer [] (directReturnValues body))

mutual

/-- All return expressions of the function excluding nested function
definitions, which is the collection the claim quantifies over. -/
def deepReturnValues : List BodyStmt → List String
  | [] => []
  | s :: rest => deepReturnValuesStmt s ++ deepReturnValues rest

/-- Return expressions contributed by one statement, compound statements
included, nested function definitions excluded. -/
def deepReturnValuesStmt : BodyStmt → List String
  | .ret (some v) => [v]
  | .ret none => []
  | .ifStmt thens elses => deepReturnValues thens ++ deepReturnValues elses
  | .innerDef _ => []
  | .other => []

end

/-- Modelled from the spec: each return expression contributes its single
best-effort type, an unresolvable one contributing `"unknown"`; the resulting
set is rendered as in the code. -/
def specInferReturnType (infer : String → Option (List String)) (body : List BodyStmt) : String :=
  let types := (deepReturnValues body).map (fun v =>
    match infer v with
    | some (t :: _) => t
    | _ => "unknown")
  renderTypeSet (types.foldl setAdd [])

/-! ## Importance scoring: `CodeElementScorer` (`llm/importance.py`)

The float weights of `__init__` (`importance.py:8-19`) are all exactly
representable and become rationals. -/

structure FuncInfo where
  name : String
  parameters : List String
  inner_functions : List String
  docstring : Option String
deriving Repr, DecidableEq

/-- Python truthiness of `func_info.get('docstring')`: `None` and the empty
string are falsy. -/
def truthyStr : Option String → Bool
  | none => false
  | some s => !(s == "")

/-- `CodeElementScorer._count_references` (`importance.py:113-123`): one per
callee containing the name as a substring. -/
def count_references (name : String) (dependencies : List (String × List String)) : Nat :=
  (dependencies.map (fun d => (d.snd.filter (fun callee => containsSub callee name)).length)).sum

/-- `CodeElementScorer._is_important_name` (`importance.py:125-128`). -/
def is_important_name (name : String) : Bool :=
  ["main", "init", "App", "Manager", "Controller", "Service", "run"].any
    (fun imp => containsSub (lowerStr name) (lowerStr imp))

/-- `CodeElementScorer.score_function` (`importance.py:53-83`) with the weight
configuration of `__init__`: focus bonus 10.0, parameter count × 1.0, inner
functions × 1.2, docstring 1.0, references × 3.0 and a doubled 1.5 name
bonus. -/
def score_function (func_info : FuncInfo) (focus_functions : List String)
    (dependencies : List (String × List String)) : ℚ :=
  (if focus_functions.any (fun focus => containsSub func_info.name focus) then (10 : ℚ) else 0) +
    (func_info.parameters.length : ℚ) * 1 +
    (func_info.inner_functions.length : ℚ) * (12 / 10) +
    (if truthyStr func_info.docstring then (1 : ℚ) else 0) +
    (count_references func_info.name dependencies : ℚ) * 3 +
    (if is_important_name func_info.name then (3 / 2 : ℚ) * 2 else 0)

/-- Row a well-formed top-level function produces in `_extract_and_store`:
name, the verbatim joined line range, and its character count. -/
def funcRowOf (f : PyFile) (fn : AstFunc) : SnippetRow :=
  mkRow f.path f.dir
    ⟨fn.name, "function", sliceJoin f.lines fn.lineno fn.end_lineno, fn.lineno,
      fn.end_lineno, pyLen (sliceJoin f.lines fn.lineno fn.end_lineno), fn.docstring⟩


/-! ## Helper lemmas -/

lemma dropWhile_dropWhile {α : Type} (p : α → Bool) (l : List α) :
    (l.dropWhile p).dropWhile p = l.dropWhile p := by
  induction l with
  | nil => rfl
  | cons c cs ih =>
    by_cases h : p c = true
    · simp [List.dropWhile_cons, h, ih]
    · simp [List.dropWhile_cons, h]

lemma dropWhile_eq_self_of_prefix {α : Type} (p : α → Bool) {l2 l : List α}
    (hpre : l2 <+: l) (hl : l.dropWhile p = l) : l2.dropWhile p = l2 := by
  cases l2 with
  | nil => rfl
  | cons c cs =>
    cases l with
    | nil => exact absurd (List.IsPrefix.length_le hpre) (by simp)
    | cons d ds =>
      have hcd : c = d := by
        have := List.cons_prefix_cons.mp hpre
        exact this.1
      have hd : p d = false := by
        by_contra hpd
        have hpd' : p d = true := by
          cases hpdv : p d with
          | false => exact absurd hpdv hpd
          | true => rfl
        rw [List.dropWhile_cons, if_pos hpd'] at hl
        have hlen := congrArg List.length hl
        have hle := List.IsSuffix.length_le (List.dropWhile_suffix (l := ds) p)
        simp at hlen
        omega
      subst hcd
      rw [List.dropWhile_cons, if_neg (by simp [hd])]

lemma pyStrip_idem (s : String) : pyStrip (pyStrip s) = pyStrip s := by
  unfold pyStrip
  set p := pyIsSpace with hp
  set l1 := s.data.dropWhile p with hl1
  set u := l1.reverse.dropWhile p with hu
  have hm_pre : u.reverse <+: l1 := by
    have h1 : u <:+ l1.reverse := List.dropWhile_suffix p
    have h2 : u.reverse.reverse <:+ l1.reverse := by simpa using h1
    exact (List.reverse_suffix).mp h2
  have hl1_fix : l1.dropWhile p = l1 := dropWhile_dropWhile p s.data
  have hm_fix : u.reverse.dropWhile p = u.reverse :=
    dropWhile_eq_self_of_prefix p hm_pre hl1_fix
  have hu_fix : u.dropWhile p = u := by
    rw [hu]; exact dropWhile_dropWhile p l1.reverse
  simp only [hm_fix, List.reverse_reverse, hu_fix]

lemma cleanName_stripped (q : String) : pyStrip (cleanName q) = cleanName q := by
  unfold cleanName
  by_cases h1 : startsWithStr "def " (pyStrip q) = true
  · simp only [h1, if_pos]
    exact pyStrip_idem _
  · simp only [h1]
    by_cases h2 : startsWithStr "class " (pyStrip q) = true
    · simp [h2, pyStrip_idem]
    · simp [h2, pyStrip_idem]

lemma cleanName_idem (q : String)
    (h1 : startsWithStr "def " (cleanName q) = false)
    (h2 : startsWithStr "class " (cleanName q) = false) :
    cleanName (cleanName q) = cleanName q := by
  conv_lhs => rw [cleanName]
  rw [cleanName_stripped q, h1, h2]
  simp

/-! ## Claim theorems -/

/-- C6: `needs_update` returns `true` for an existing file exactly when no
`code_files` record exists for the path or the filesystem mtime is strictly
greater than the stored last-parsed time. -/
theorem needs_update_iff (fsMtime : String → Option ℚ) (files : List (String × ℚ))
    (fp : String) (m : ℚ) (hfs : fsMtime fp = some m) :
    needs_update fsMtime files fp = true ↔
      (lookupParsedTime files fp = none ∨
        ∃ t, lookupParsedTime files fp = some t ∧ t < m) := by
  unfold needs_update
  rw [hfs]
  cases h : lookupParsedTime files fp with
  | none => simp
  | some t => simp [h]

/-- C6 witness: a concrete file with mtime 7 and a stored record at time 5 is
reported stale. -/
theorem needs_update_iff_witness :
    (fun _ : String => (some (7 : ℚ))) "a.py" = some 7 ∧
      (needs_update (fun _ => some 7) [("a.py", 5)] "a.py" = true ↔
        (lookupParsedTime [("a.py", (5 : ℚ))] "a.py" = none ∨
          ∃ t, lookupParsedTime [("a.py", (5 : ℚ))] "a.py" = some t ∧ t < 7)) :=
  ⟨rfl, needs_update_iff (fun _ => some 7) [("a.py", 5)] "a.py" 7 rfl⟩

/-- C10: `get_code_by_name` normalises its query first — stripping whitespace
and removing a leading `def `/`class ` header together with everything from
the first parenthesis — so any query whose normal form is itself stable
returns exactly the rows of its normalised (bare-name) form, in either
mode. -/
theorem lookup_normalises_query (rows : List SnippetRow) (fp q : String) (mode : Bool)
    (h1 : startsWithStr "def " (cleanName q) = false)
    (h2 : startsWithStr "class " (cleanName q) = false) :
    get_code_by_name rows fp q mode = get_code_by_name rows fp (cleanName q) mode := by
  unfold get_code_by_name
  rw [cleanName_idem q h1 h2]

/-- C10 witness: looking up the definition header `def foo(x):` is the very
same query as looking up the bare name `foo`. -/
theorem lookup_normalises_query_witness :
    startsWithStr "def " (cleanName "def foo(x):") = false ∧
      startsWithStr "class " (cleanName "def foo(x):") = false ∧
      cleanName "def foo(x):" = "foo" ∧
      get_code_by_name [⟨"w.py", "", "foo", "function", "", "def foo(x):\n    return x", 1, 2, 24⟩]
          "w.py" "def foo(x):" true =
        get_code_by_name [⟨"w.py", "", "foo", "function", "", "def foo(x):\n    return x", 1, 2, 24⟩]
          "w.py" (cleanName "def foo(x):") true :=
  ⟨by decide, by decide, by decide,
    lookup_normalises_query _ "w.py" "def foo(x):" true (by decide) (by decide)⟩

lemma extract_imports_loop_eq (acc : List ImportStmt) (ns : List ImportNode) :
    extract_imports_loop acc ns =
      acc ++ ns.map (fun n => ⟨renderImport n, importLine n, importLine n⟩) := by
  induction ns generalizing acc with
  | nil => simp [extract_imports_loop]
  | cons n rest ih => simp [extract_imports_loop, ih]

lemma astroid_imports_loop_eq (acc : List String) (ns : List ImportNode) :
    astroid_imports_loop acc ns = acc ++ ns.flatMap astroidImportLines := by
  induction ns generalizing acc with
  | nil => simp [astroid_imports_loop]
  | cons n rest ih => simp [astroid_imports_loop, ih]

/-- C7 counterexample: on `from x import b, a` both extractors keep the names
in source order, not the grouped, merged, lexicographically sorted form the
claim describes. -/
theorem import_extraction_not_normalising :
    (extract_imports [.impFrom "x" ["b", "a"] 1]).map (fun i => i.statement) ≠
        specNormalizedImports [.impFrom "x" ["b", "a"] 1] ∧
      (extract_imports [.impFrom "x" ["b", "a"] 1]).map (fun i => i.statement) =
        ["from x import b, a"] ∧
      specNormalizedImports [.impFrom "x" ["b", "a"] 1] = ["from x import a, b"] := by
  refine ⟨?_, ?_, ?_⟩ <;> decide

/-- C7 amended: each extractor emits exactly one entry per import node (the
astroid variant one per name for plain imports), in source order with the
names joined in source order — no grouping, merging or sorting; the output is
a pure function of the parsed nodes, so identical input yields identical
output. -/
theorem import_extraction_characterisation (ns : List ImportNode) :
    extract_imports ns = ns.map (fun n => ⟨renderImport n, importLine n, importLine n⟩) ∧
      astroid_imports ns = ns.flatMap astroidImportLines := by
  constructor
  · simpa using extract_imports_loop_eq [] ns
  · simpa using astroid_imports_loop_eq [] ns

lemma score_main_eval :
    score_function ⟨"main", [], [], none⟩ ["main"] [] = 13 := by
  have hfocus : (["main"].any fun focus => containsSub "main" focus) = true := by decide
  have himp : is_important_name "main" = true := by decide
  have hrefs : count_references "main" [] = 0 := by decide
  simp only [score_function, hfocus, himp, hrefs, truthyStr, if_true]
  norm_num

/-- C8 counterexample: the weight table of `CodeElementScorer.__init__` is
exactly the claimed one, yet the score of a bare `main` with focus `["main"]`
is not 10.0 — the name-importance bonus also fires. -/
theorem score_main_not_ten :
    ¬ score_function ⟨"main", [], [], none⟩ ["main"] [] = 10 := by
  have hfocus : (["main"].any fun focus => containsSub "main" focus) = true := by decide
  have himp : is_important_name "main" = true := by decide
  have hrefs : count_references "main" [] = 0 := by decide
  simp only [score_function, hfocus, himp, hrefs, truthyStr, if_true]
  norm_num

/-- C8 amended: with the `__init__` weights, focus `["main"]` and a `main`
function with no docstring, parameters, inner functions or references, the
score is exactly 13.0: the 10.0 focus bonus plus the doubled 1.5
name-importance bonus, which `main` always receives. -/
theorem score_main_eq_thirteen :
    score_function ⟨"main", [], [], none⟩ ["main"] [] = 13 :=
  score_main_eval

/-- C2 counterexample: budget 100 over raw sizes 1 and 99. The 1-share is
floored to 5, the even subtraction of the excess 4 is clamped at the floor,
and only 2 of the 4 excess units are actually removed: the returned quotas 5
and 97 sum to 102 > 100 although the budget is well above twice the floor. -/
theorem allocate_budget_overshoots :
    (allocate_budget 100 [1, 99]).sum = 102 ∧
      ¬ (allocate_budget 100 [1, 99]).sum ≤ 100 ∧
      ¬ (100 : ℚ) < 2 * minBudget 100 := by
  have h : allocate_budget 100 [1, 99] = [5, 97] := by
    norm_num [allocate_budget, flooredAllocation, rawAllocation, normalizedRatios, minBudget]
  norm_num [h, minBudget]

/-- C2 amended: every returned quota is at least the 5 percent floor,
unconditionally; whenever the floored allocation does not overshoot the
budget (in particular when no share needed flooring), it is returned
unchanged, so the quotas sum to at most B. When the floored sum does
overshoot, the even subtraction is clamped at the floor and the returned sum
can exceed B, as the counterexample shows. -/
theorem allocate_budget_floor_and_conditional_sum (B : ℚ) (shares : List ℚ) :
    (∀ q ∈ allocate_budget B shares, minBudget B ≤ q) ∧
      ((flooredAllocation B shares).sum ≤ B → (allocate_budget B shares).sum ≤ B) := by
  constructor
  · intro q hq
    unfold allocate_budget at hq
    by_cases hover : (flooredAllocation B shares).sum > B
    · rw [if_pos hover] at hq
      obtain ⟨v, _, hqe⟩ := List.mem_map.mp hq
      rw [← hqe]
      exact le_max_left _ _
    · rw [if_neg hover] at hq
      unfold flooredAllocation at hq
      obtain ⟨v, _, hqe⟩ := List.mem_map.mp hq
      rw [← hqe]
      by_cases hlt : v < minBudget B
      · simp [hlt]
      · simp [hlt]
        exact le_of_not_lt hlt
  · intro hnov
    unfold allocate_budget
    rw [if_neg (not_lt.mpr hnov)]
    exact hnov

/-- C2 witness: the spec's own Scenario 4 — budget 100, raw sizes 80 and 20 —
needs no flooring, so both the floor bound and the budget bound hold. -/
theorem allocate_budget_floor_and_conditional_sum_witness :
    (flooredAllocation 100 [80, 20]).sum ≤ 100 ∧
      (∀ q ∈ allocate_budget 100 [80, 20], minBudget 100 ≤ q) ∧
      (allocate_budget 100 [80, 20]).sum ≤ 100 := by
  have hfl : (flooredAllocation 100 [80, 20]).sum ≤ 100 := by
    norm_num [flooredAllocation, rawAllocation, normalizedRatios, minBudget]
  exact ⟨hfl, (allocate_budget_floor_and_conditional_sum 100 [80, 20]).1,
    (allocate_budget_floor_and_conditional_sum 100 [80, 20]).2 hfl⟩

/-- C4: evaluation at the failing input. Module `m1` defines `helper`, module
`m2`'s `main` calls `helper()` bare; the registration pass records both
functions, but the resolution pass records no edge at all — `dependency.py:115`
reads `node.func.name` from an `ast.Name`, which only has `id`, and the
`AttributeError` handler swallows the call — while the specification's
first-match scan resolves the callee to `m1.helper`. -/
theorem call_graph_drops_bare_calls :
    generate_call_graph
        [⟨"m1", [⟨"helper", [.passStmt]⟩], []⟩,
          ⟨"m2", [⟨"main", [.exprStmt (.call (.byName "helper") [])]⟩], []⟩] =
        [("m1.helper", []), ("m2.main", [])] ∧
      specResolveBareCall
          [⟨"m1", [⟨"helper", [.passStmt]⟩], []⟩,
            ⟨"m2", [⟨"main", [.exprStmt (.call (.byName "helper") [])]⟩], []⟩] "helper" =
        some "m1.helper" := by
  constructor <;> decide

/-- C5 counterexample: a function whose body is `if …: return e1` followed by
`return e2`, where `e1` infers to `int` and inferring `e2` raises. The claim's
set of best-effort types is `{int, unknown}`, rendered `"int | unknown"`, but
`_infer_return_type` only sees direct children of the `FunctionDef` and skips
raising returns, so it answers `"None"`. -/
theorem infer_return_type_counterexample :
    infer_return_type (fun v => if v = "e1" then some ["int"] else none)
        [.ifStmt [.ret (some "e1")] [], .ret (some "e2")] = "None" ∧
      specInferReturnType (fun v => if v = "e1" then some ["int"] else none)
        [.ifStmt [.ret (some "e1")] [], .ret (some "e2")] = "int | unknown" ∧
      ("None" : String) ≠ "int | unknown" := by
  refine ⟨?_, ?_, ?_⟩ <;> decide

lemma collectTypes_eq_flatMap (infer : String → Option (List String))
    (acc : List String) (vs : List String) :
    collectTypes infer acc vs =
      (vs.flatMap (fun v => (infer v).getD [])).foldl setAdd acc := by
  induction vs generalizing acc with
  | nil => simp [collectTypes]
  | cons v rest ih =>
    cases h : infer v with
    | none => simp [collectTypes, h, ih]
    | some rendered => simp [collectTypes, h, ih, List.foldl_append]

/-- C5 amended: the inferred return type is computed from the set of inferred
types of the `return` statements that are direct children of the function
node only (returns nested inside compound statements are not collected), a
return whose inference raises contributing nothing rather than `"unknown"`;
the empty set yields `"None"`, a singleton its element, and two or more
distinct types the `" | "`-joined union in lexicographic order. -/
theorem infer_return_type_characterisation (infer : String → Option (List String))
    (body : List BodyStmt) :
    infer_return_type infer body =
      renderTypeSet
        (((directReturnValues body).flatMap (fun v => (infer v).getD [])).foldl setAdd []) := by
  unfold infer_return_type
  rw [collectTypes_eq_flatMap]

/-- C1: evaluation at the failing input. A file with one committed old row is
re-extracted and `ast.parse` raises `SyntaxError`. `extract_from_file` has
already committed the timestamp update and the deletion of the old rows
before `BEGIN TRANSACTION` (`code_extractor.py:62-69`), so afterwards a
reader sees an empty snippet set — neither the old complete set nor a new
one — and a fresh timestamp. A second run with two snippets whose second
INSERT fails likewise commits a mixture: exactly one of the two new rows. -/
theorem upsert_not_atomic :
    rowsFor (extract_from_file "f.py" "" 5 none (fun _ => false)
        ⟨⟨[⟨"f.py", "", "foo", "function", "", "def foo():\n    pass", 1, 2, 19⟩], []⟩,
          ⟨[⟨"f.py", "", "foo", "function", "", "def foo():\n    pass", 1, 2, 19⟩], []⟩⟩).2.committed
        "f.py" = [] ∧
      lookupParsedTime (extract_from_file "f.py" "" 5 none (fun _ => false)
        ⟨⟨[⟨"f.py", "", "foo", "function", "", "def foo():\n    pass", 1, 2, 19⟩], []⟩,
          ⟨[⟨"f.py", "", "foo", "function", "", "def foo():\n    pass", 1, 2, 19⟩], []⟩⟩).2.committed.files
        "f.py" = some 5 ∧
      rowsFor (extract_from_file "f.py" "" 5
          (some [⟨"a", "function", "def a(): pass", 1, 1, 13, ""⟩,
            ⟨"b", "function", "def b(): pass", 2, 2, 13, ""⟩])
          (fun i => i == 1)
          ⟨⟨[⟨"f.py", "", "foo", "function", "", "def foo():\n    pass", 1, 2, 19⟩], []⟩,
            ⟨[⟨"f.py", "", "foo", "function", "", "def foo():\n    pass", 1, 2, 19⟩], []⟩⟩).2.committed
        "f.py" = [⟨"f.py", "", "a", "function", "", "def a(): pass", 1, 1, 13⟩] := by
  refine ⟨?_, ?_, ?_⟩ <;> decide

/-- C9 counterexample: one snippet whose INSERT fails. `add_code_snippet`
reports the failure only as `False`, `_store_snippet` discards it, and
`extract_from_file` returns count 1 — the overall-success signal its callers
test — while the committed table holds no row: the failed write is silently
dropped. -/
theorem failed_write_reported_as_success :
    (extract_from_file "f.py" "" 5
        (some [⟨"a", "function", "def a(): pass", 1, 1, 13, ""⟩]) (fun _ => true)
        ⟨⟨[], []⟩, ⟨[], []⟩⟩).1 = 1 ∧
      rowsFor (extract_from_file "f.py" "" 5
        (some [⟨"a", "function", "def a(): pass", 1, 1, 13, ""⟩]) (fun _ => true)
        ⟨⟨[], []⟩, ⟨[], []⟩⟩).2.committed "f.py" = [] := by
  constructor <;> decide

/-- C9 amended: a persistence failure is caught inside `add_code_snippet` and
reported to its immediate caller as the return value `False`, with the
database unchanged — never as a typed error — and `CodeExtractor` discards
that flag: the count `extract_from_file` reports equals the number of
attempted stores whatever the failure pattern, so failed writes do not reach
the caller at all. -/
theorem store_failures_flagged_then_discarded :
    (∀ (row : SnippetRow) (conn : SqliteConn), add_code_snippet true row conn = (false, conn)) ∧
      ∀ (fp dp : String) (fails : Nat → Bool) (snips : List SnipData) (count : Nat)
        (conn : SqliteConn), (storeAll fp dp fails snips count conn).1 = count + snips.length := by
  constructor
  · intro row conn
    rfl
  · intro fp dp fails snips
    induction snips with
    | nil => intro count conn; simp [storeAll]
    | cons d rest ih =>
      intro count conn
      rw [storeAll, ih]
      simp
      omega

lemma like_lit (p : List Char) :
    ∀ s : List Char, (∀ c ∈ p, c ≠ '%') →
      (likeMatch p s = true ↔ litMatches p s = true) := by
  induction p with
  | nil =>
    intro s _
    cases s <;> simp [likeMatch, litMatches]
  | cons c cs ih =>
    intro s hmf
    have hc : c ≠ '%' := hmf c (by simp)
    have hcs : ∀ x ∈ cs, x ≠ '%' := fun x hx => hmf x (by simp [hx])
    cases s with
    | nil =>
      simp [likeMatch, litMatches, hc]
    | cons d ds =>
      by_cases hund : c = '_'
      · subst hund
        simp only [likeMatch, if_neg hc, if_true, litMatches, Bool.true_and]
        rw [ih ds hcs]
      · simp only [likeMatch, if_neg hc, if_neg hund, litMatches, Bool.and_eq_true]
        rw [ih ds hcs]

lemma like_star (s : List Char) :
    ∀ p : List Char, (∀ c ∈ p, c ≠ '%') →
      (likeMatch ('%' :: p) s = true ↔
        ∃ t, t <:+ s ∧ litMatches p t = true) := by
  induction s with
  | nil =>
    intro p hmf
    simp only [likeMatch, if_true, Bool.or_false]
    rw [like_lit p [] hmf]
    constructor
    · intro h
      exact ⟨[], List.nil_suffix, h⟩
    · rintro ⟨t, ht, hlit⟩
      rw [List.suffix_nil.mp ht] at hlit
      exact hlit
  | cons d ds ih =>
    intro p hmf
    simp only [likeMatch, if_true, Bool.or_eq_true]
    rw [like_lit p (d :: ds) hmf, ih p hmf]
    constructor
    · rintro (h | ⟨t, ht, hlit⟩)
      · exact ⟨d :: ds, List.suffix_refl _, h⟩
      · exact ⟨t, ht.trans (List.suffix_cons d ds), hlit⟩
    · rintro ⟨t, ht, hlit⟩
      rcases List.suffix_cons_iff.mp ht with h' | h'
      · subst h'
        exact Or.inl hlit
      · exact Or.inr ⟨t, h', hlit⟩

lemma likeMatch_star_unfold (ps s : List Char) :
    likeMatch ('%' :: ps) s =
      (likeMatch ps s ||
        (match s with
          | [] => false
          | _ :: s2 => likeMatch ('%' :: ps) s2)) := by
  rw [likeMatch.eq_def]
  rfl

lemma like_mem (p s : List Char) :
    likeMatch p s = true →
      ∀ c ∈ p, c ≠ '%' → c ≠ '_' → Char.toLower c ∈ s.map Char.toLower := by
  induction p, s using likeMatch.induct with
  | case1 s =>
    intro _ c hc
    exact (List.not_mem_nil c hc).elim
  | case2 ps s ih1 ih2 =>
    intro h c hmem hc1 hc2
    rw [likeMatch_star_unfold, Bool.or_eq_true] at h
    have hcps : c ∈ ps := by
      rcases List.mem_cons.mp hmem with h' | h'
      · exact absurd h' hc1
      · exact h'
    rcases h with h' | h'
    · exact ih1 h' c hcps hc1 hc2
    · cases s with
      | nil => simp at h'
      | cons d ds =>
        have := ih2 h' c hmem hc1 hc2
        simpa using List.mem_cons_of_mem _ this
  | case3 p ps hp =>
    intro h
    simp only [likeMatch, if_neg hp] at h
    exact absurd h Bool.false_ne_true
  | case4 ps head s2 hne ih =>
    intro h c hmem hc1 hc2
    simp only [likeMatch, if_neg hne, if_true] at h
    have hcps : c ∈ ps := by
      rcases List.mem_cons.mp hmem with h' | h'
      · exact absurd h' hc2
      · exact h'
    exact List.mem_cons_of_mem _ (ih h c hcps hc1 hc2)
  | case5 p ps hp head s2 hpu ih =>
    intro h c hmem hc1 hc2
    simp only [likeMatch, if_neg hp, if_neg hpu, Bool.and_eq_true, sqlCharEq,
      decide_eq_true_eq] at h
    rcases List.mem_cons.mp hmem with h' | h'
    · subst h'
      rw [List.map_cons, h.1]
      simp
    · exact List.mem_cons_of_mem _ (ih h.2 c h' hc1 hc2)

lemma exact_match_iff (q s : String) (hq : ∀ c ∈ q.data, c ≠ '%')
    (hpar : '(' ∉ s.data.map Char.toLower) :
    exactNameMatch q s = true ↔
      s = q ∨ ∃ t, t <:+ s.data ∧ litMatches ('.' :: q.data) t = true := by
  have hdot : ∀ c ∈ '.' :: q.data, c ≠ '%' := by
    intro c hc
    rcases List.mem_cons.mp hc with h' | h'
    · subst h'
      decide
    · exact hq c h'
  have hdata2 : ("%." ++ q).data = '%' :: '.' :: q.data := by
    rw [String.data_append]
    rfl
  have hdata3 : ("%." ++ q ++ "(%").data = '%' :: ('.' :: q.data ++ ['(', '%']) := by
    rw [String.data_append, String.data_append]
    rfl
  have h3 : likeStr s ("%." ++ q ++ "(%") = false := by
    cases hval : likeStr s ("%." ++ q ++ "(%") with
    | false => rfl
    | true =>
      exfalso
      unfold likeStr at hval
      rw [hdata3] at hval
      have hmem := like_mem _ _ hval '(' (by simp) (by decide) (by decide)
      rw [show Char.toLower '(' = '(' from by decide] at hmem
      exact hpar hmem
  unfold exactNameMatch
  rw [h3, Bool.or_false, Bool.or_eq_true, beq_iff_eq]
  unfold likeStr
  rw [hdata2, like_star s.data ('.' :: q.data) hdot]

lemma extractRows_path (f : PyFile) : ∀ r ∈ extractRows f, r.file_path = f.path := by
  intro r hr
  unfold extractRows at hr
  rcases List.mem_append.mp hr with h | h
  · rcases List.mem_append.mp h with h' | h'
    · obtain ⟨x, _, rfl⟩ := List.mem_map.mp h'
      rfl
    · obtain ⟨c, _, hrc⟩ := List.mem_flatMap.mp h'
      simp only [classRows] at hrc
      split at hrc
      · exact (List.not_mem_nil r hrc).elim
      · rcases List.mem_cons.mp hrc with h'' | h''
        · subst h''
          rfl
        · obtain ⟨m, _, hm⟩ := List.mem_filterMap.mp h''
          simp only [methodRows] at hm
          split at hm
          · exact (Option.noConfusion hm)
          · injection hm with hm'
            subst hm'
            rfl
  · obtain ⟨fn, _, hm⟩ := List.mem_filterMap.mp h
    simp only [funcRows] at hm
    split at hm
    · exact (Option.noConfusion hm)
    · injection hm with hm'
      subst hm'
      rfl

lemma funcRowOf_mem (f : PyFile) (fn : AstFunc) (hfn : fn ∈ f.funcs)
    (h2 : fn.lineno < fn.end_lineno) (h3 : fn.end_lineno ≤ f.lines.length) :
    funcRowOf f fn ∈ extractRows f := by
  unfold extractRows
  refine List.mem_append.mpr (Or.inr ?_)
  refine List.mem_filterMap.mpr ⟨fn, hfn, ?_⟩
  have e0 : (if fn.end_lineno ≤ fn.lineno then f.lines.length else fn.end_lineno) =
      fn.end_lineno := by
    rw [if_neg]
    omega
  simp only [funcRows, e0]
  rw [if_neg (by omega), if_neg (by omega)]
  rfl

lemma filter_eq_single {α : Type} [DecidableEq α] (p : α → Bool) (a : α)
    (hpa : p a = true) :
    ∀ l : List α, a ∈ l → l.count a = 1 → (∀ x ∈ l, p x = true → x = a) →
      l.filter p = [a] := by
  intro l
  induction l with
  | nil => intro hmem; exact (List.not_mem_nil a hmem).elim
  | cons b bs ih =>
    intro hmem hcnt hu
    by_cases hba : b = a
    · subst hba
      have hbs : b ∉ bs := by
        rw [List.count_cons] at hcnt
        simp only [beq_self_eq_true, if_true] at hcnt
        have : bs.count b = 0 := by omega
        exact List.count_eq_zero.mp this
      have hnil : bs.filter p = [] := by
        rw [List.filter_eq_nil_iff]
        intro x hx hpx
        have hxa := hu x (List.mem_cons_of_mem _ hx) hpx
        rw [hxa] at hx
        exact hbs hx
      rw [List.filter_cons_of_pos hpa, hnil]
    · have hpb : p b = false := by
        cases hpbv : p b with
        | true => exact absurd (hu b (List.mem_cons_self b bs) hpbv) hba
        | false => rfl
      have hmem' : a ∈ bs := by
        rcases List.mem_cons.mp hmem with h' | h'
        · exact absurd h'.symm hba
        · exact h'
      have hcnt' : bs.count a = 1 := by
        rw [List.count_cons] at hcnt
        simp only [beq_iff_eq, hba, if_false] at hcnt
        omega
      rw [List.filter_cons_of_neg (by simp [hpb])]
      exact ih hmem' hcnt' (fun x hx hpx => hu x (List.mem_cons_of_mem _ hx) hpx)

/-- C3 counterexample: a file with class `Foo`, method `Foo.bar` and top-level
function `bar`. `bar` is a stored symbol's full qualified name, yet exact-mode
lookup for it returns two snippets — the dotted-suffix clause also matches
`Foo.bar` — so the round trip does not return exactly one Snippet. -/
theorem exact_lookup_not_unique :
    ((extractRows ⟨"ex.py", "",
        ["class Foo:", "    def bar(self):", "        pass", "def bar():", "    pass"],
        [], [⟨"Foo", 1, 3, "", [⟨"bar", 2, 3, ""⟩]⟩], [⟨"bar", 4, 5, ""⟩]⟩).map
        (fun r => r.name) = ["Foo", "Foo.bar", "bar"]) ∧
      (get_code_by_name (extractRows ⟨"ex.py", "",
        ["class Foo:", "    def bar(self):", "        pass", "def bar():", "    pass"],
        [], [⟨"Foo", 1, 3, "", [⟨"bar", 2, 3, ""⟩]⟩], [⟨"bar", 4, 5, ""⟩]⟩)
        "ex.py" "bar" true).length = 2 := by
  constructor
  · decide
  · simp [get_code_by_name, cleanName, pyStrip, pyIsSpace, startsWithStr, pyDrop,
      takeBeforeParen, exactNameMatch, likeStr, likeMatch, sqlCharEq, extractRows,
      importRows, classRows, methodRows, funcRows, extract_imports, extract_imports_loop,
      mkRow, sliceJoin, pyLen]

/-- C3 amended: after extraction, exact-mode lookup by a stored top-level
function's qualified name returns exactly one Snippet when no other stored
name matches the query's exact-mode clause (and the name occurs once); that
Snippet's code is the verbatim join of the symbol's 1-indexed inclusive line
range, provided the symbol spans at least two lines inside the file — the
extractor widens a one-line span to the end of the file. On
parenthesis-free stored names, exact mode matches exactly the full qualified
name, or any name with a suffix that matches a dot followed by the query
under SQLite `LIKE` literal semantics: ASCII case is folded and an
underscore in the query matches any single character, so for an
underscore-free query this is precisely the case-insensitive dotted-suffix
relation. -/
theorem exact_lookup_roundtrip (f : PyFile) (q : String) (fn : AstFunc)
    (hq : ∀ c ∈ q.data, c ≠ '%') (hclean : cleanName q = q)
    (hfn : fn ∈ f.funcs) (hname : fn.name = q)
    (h2 : fn.lineno < fn.end_lineno) (h3 : fn.end_lineno ≤ f.lines.length)
    (hcnt : (extractRows f).count (funcRowOf f fn) = 1)
    (huniq : ∀ r ∈ extractRows f, exactNameMatch q r.name = true → r = funcRowOf f fn) :
    get_code_by_name (extractRows f) f.path q true = [funcRowOf f fn] ∧
      (funcRowOf f fn).code =
        String.intercalate "\n"
          ((f.lines.drop (fn.lineno - 1)).take (fn.end_lineno - (fn.lineno - 1))) ∧
      ∀ s : String, '(' ∉ s.data.map Char.toLower →
        (exactNameMatch q s = true ↔
          s = q ∨ ∃ t, t <:+ s.data ∧ litMatches ('.' :: q.data) t = true) := by
  refine ⟨?_, rfl, fun s hpar => exact_match_iff q s hq hpar⟩
  unfold get_code_by_name
  simp only [hclean, if_true]
  refine filter_eq_single _ (funcRowOf f fn) ?_ _ (funcRowOf_mem f fn hfn h2 h3) hcnt ?_
  · rw [Bool.and_eq_true]
    constructor
    · exact beq_iff_eq.mpr rfl
    · have hn : (funcRowOf f fn).name = q := hname
      unfold exactNameMatch
      rw [hn]
      simp
  · intro x hx hpx
    rw [Bool.and_eq_true] at hpx
    exact huniq x hx hpx.2

/-- C3 witness: a two-line snake_case function `my_func` in a two-line file
round-trips to exactly its own snippet with the verbatim source of
lines 1-2. -/
theorem exact_lookup_roundtrip_witness :
    cleanName "my_func" = "my_func" ∧
      (extractRows ⟨"w.py", "", ["def my_func():", "    pass"], [], [],
        [⟨"my_func", 1, 2, ""⟩]⟩).count
        (funcRowOf ⟨"w.py", "", ["def my_func():", "    pass"], [], [], [⟨"my_func", 1, 2, ""⟩]⟩
          ⟨"my_func", 1, 2, ""⟩) = 1 ∧
      get_code_by_name
          (extractRows ⟨"w.py", "", ["def my_func():", "    pass"], [], [],
            [⟨"my_func", 1, 2, ""⟩]⟩)
          "w.py" "my_func" true =
        [funcRowOf ⟨"w.py", "", ["def my_func():", "    pass"], [], [], [⟨"my_func", 1, 2, ""⟩]⟩
          ⟨"my_func", 1, 2, ""⟩] := by
  have hrows : extractRows ⟨"w.py", "", ["def my_func():", "    pass"], [], [],
      [⟨"my_func", 1, 2, ""⟩]⟩ =
      [funcRowOf ⟨"w.py", "", ["def my_func():", "    pass"], [], [], [⟨"my_func", 1, 2, ""⟩]⟩
        ⟨"my_func", 1, 2, ""⟩] := by
    decide
  refine ⟨by decide, by decide, ?_⟩
  refine (exact_lookup_roundtrip
      ⟨"w.py", "", ["def my_func():", "    pass"], [], [], [⟨"my_func", 1, 2, ""⟩]⟩ "my_func"
      ⟨"my_func", 1, 2, ""⟩ (by decide) (by decide) (by decide) rfl (by decide) (by decide)
      (by decide) ?_).1
  intro r hr _
  rw [hrows] at hr
  simpa using hr
